import Mathlib

/-!
Verification of the documentation-testing core of the to-do-service repository
(`src/tools/test-api-docs.py`, `src/tools/doc_test_utils.py`,
`src/tools/schema_validator.py`) against its natural-language specification.

Strings are modelled as `List Char` (the tools work character- and line-wise
over Python `str`).  Python/YAML/JSON dynamic values are modelled by the tagged
union `Jv`.  External collaborators that the core only calls through a narrow
interface (the YAML decoder `yaml.safe_load`, the JSON decoder `json.loads`,
the `jsonschema` validation call, and the curl subprocess) are passed as
function parameters; everything else is translated directly from the Python
source.  Code paths on which the Python source raises an uncaught exception
are modelled with `Except PyExc`.
-/

namespace DocTest

/-- Strings are modelled as lists of characters. -/
abbrev Str := List Char

/-- Coerce a Lean string literal to the `List Char` model. -/
def str (s : String) : Str := s.data

/-- Python `str.isspace`-style whitespace, as used by `str.strip()` and `\s`
in the source's regexes (ASCII fragment). -/
def isPySpace (c : Char) : Bool :=
  c = ' ' || c = '\t' || c = '\n' || c = '\r' || c = '\x0b' || c = '\x0c'

/-- Drop trailing Python whitespace (the right half of `str.strip()`). -/
def dropTrailing (s : Str) : Str := (s.reverse.dropWhile isPySpace).reverse

/-- Python `str.strip()` with no argument: drop leading and trailing whitespace. -/
def pyStrip (s : Str) : Str := dropTrailing (s.dropWhile isPySpace)

/-- Python `str.split(sep)` for a single-character separator `sep`
(`"".split(sep) = [""]`, separators produce empty pieces). -/
def splitOnChar (sep : Char) : Str → List Str
  | [] => [[]]
  | c :: rest =>
    if c = sep then [] :: splitOnChar sep rest
    else
      match splitOnChar sep rest with
      | [] => [[c]]
      | h :: t => (c :: h) :: t

/-- Python `sep.flatten(pieces)`. -/
def joinWith (sep : Str) : List Str → Str
  | [] => []
  | [x] => x
  | x :: xs => x ++ sep ++ joinWith sep xs

/-- First occurrence split: `subSplit pat s = some (a, b)` when `s = a ++ pat ++ b`
and this is the leftmost occurrence of `pat` in `s`. -/
def subSplit (pat : Str) : Str → Option (Str × Str)
  | [] => none
  | c :: rest =>
    if pat.isPrefixOf (c :: rest) then some ([], (c :: rest).drop pat.length)
    else (subSplit pat rest).map (fun ab => (c :: ab.1, ab.2))

/-- Python `pat in s` substring test (`"" in s` is true). -/
def isSubStr (pat s : Str) : Bool := pat.isEmpty || (subSplit pat s).isSome

/-- Python `s.replace(pat, rep, 1)`: replace the leftmost occurrence only;
`s` is returned unchanged when `pat` does not occur.  (The empty pattern,
which Python treats specially, is never used by the source.) -/
def replaceFirst (s pat rep : Str) : Str :=
  match subSplit pat s with
  | none => s
  | some ab => ab.1 ++ rep ++ ab.2

/-- Fuelled worker for `replaceAll`; the fuel only bounds the number of
replacements, which is at most `s.length + 1` for a nonempty pattern. -/
def replaceAllGo (pat rep : Str) : Nat → Str → Str
  | 0, s => s
  | fuel + 1, s =>
    match subSplit pat s with
    | none => s
    | some ab => ab.1 ++ rep ++ replaceAllGo pat rep fuel ab.2

/-- Python `s.replace(pat, rep)`: replace all non-overlapping occurrences,
left to right.  (The empty pattern is never used by the source.) -/
def replaceAll (s pat rep : Str) : Str :=
  if pat.isEmpty then s else replaceAllGo pat rep (s.length + 1) s

/-- Digit characters of a natural number, most significant first (`str(n)`). -/
def natRender (n : Nat) : Str :=
  if n = 0 then ['0']
  else (Nat.digits 10 n).reverse.map (fun d => Char.ofNat (48 + d))

/-- Python `str(i)` for an integer. -/
def intRender (i : Int) : Str :=
  if i < 0 then '-' :: natRender i.natAbs else natRender i.natAbs

/-- Numeric value of a big-endian string of decimal digit characters. -/
def digitsVal (ds : Str) : Nat :=
  Nat.ofDigits 10 ((ds.map (fun c => c.toNat - 48)).reverse)

/-- After a digit, the rest of a PEP-515 decimal literal: further digits, with
a single underscore allowed only when a digit follows it. -/
def underscoreRest : Str → Bool
  | [] => true
  | c :: rest =>
    if c = '_' then
      match rest with
      | [] => false
      | d :: rest2 => d.isDigit && underscoreRest rest2
    else c.isDigit && underscoreRest rest

/-- Parse a Python 3 decimal digit run: nonempty, starting with a digit, with
single PEP-515 underscores strictly between digits (so `1_0` parses as 10
while `_1`, `1_` and `1__0` are rejected); the underscores do not contribute
to the value. -/
def parseNatDigits : Str → Option Nat
  | [] => none
  | c :: rest =>
    if c.isDigit && underscoreRest rest then
      some (digitsVal ((c :: rest).filter (fun x => x != '_')))
    else none

/-- Python `int(s)` on a decimal string: surrounding whitespace, an optional
single sign, then a nonempty digit run with PEP-515 underscore grouping
(ASCII fragment: non-ASCII digits and non-ASCII whitespace are outside the
modelled domain). -/
def pyInt (s : Str) : Option Int :=
  match pyStrip s with
  | [] => none
  | c :: rest =>
    if c = '-' then (parseNatDigits rest).map (fun n => -(n : Int))
    else if c = '+' then (parseNatDigits rest).map (fun n => (n : Int))
    else (parseNatDigits (c :: rest)).map (fun n => (n : Int))

/-- Tagged union of the dynamic values flowing through the tools: everything
`yaml.safe_load` / `json.loads` can produce (Python `None`, `bool`, `int`,
`float`, `str`, `list`, `dict`).  Floats are modelled as rationals. -/
inductive Jv where
  | null : Jv
  | bool (b : Bool) : Jv
  | int (n : Int) : Jv
  | float (q : Rat) : Jv
  | str (s : Str) : Jv
  | arr (xs : List Jv) : Jv
  | obj (kvs : List (Str × Jv)) : Jv

/-- Python `type(v).__name__` for the values of `Jv`. -/
def typeName : Jv → Str
  | .null => str "NoneType"
  | .bool _ => str "bool"
  | .int _ => str "int"
  | .float _ => str "float"
  | .str _ => str "str"
  | .arr _ => str "list"
  | .obj _ => str "dict"

/-- Python truthiness (`bool(v)`) for the values of `Jv`. -/
def truthy : Jv → Bool
  | .null => false
  | .bool b => b
  | .int n => n != 0
  | .float q => q != 0
  | .str s => !s.isEmpty
  | .arr xs => !xs.isEmpty
  | .obj kvs => !kvs.isEmpty

/-- Whether a value is the Python `None` sentinel. -/
def Jv.isNull : Jv → Bool
  | .null => true
  | _ => false

/-- Whether a value is a mapping (Python `dict`). -/
def Jv.isObj : Jv → Bool
  | .obj _ => true
  | _ => false

/-- Dictionary lookup (`d[k]` / the hit case of `d.get(k)`); Python dict keys
are unique, first match wins. -/
def findVal : List (Str × Jv) → Str → Option Jv
  | [], _ => none
  | (k, v) :: rest, key => if k = key then some v else findVal rest key

/-- Python `k in d` for a dict. -/
def keyMem (kvs : List (Str × Jv)) (k : Str) : Bool := (findVal kvs k).isSome

/-- `path or 'root'` as used in the comparator's messages. -/
def pathOrRoot (p : Str) : Str := if p.isEmpty then str "root" else p

/-- `f"{path}.{key}" if path else key`. -/
def keyPath (p k : Str) : Str := if p.isEmpty then k else p ++ str "." ++ k

/-- `f"{path}[{i}]" if path else f"[{i}]"` (both arms concatenate the same). -/
def idxPath (p : Str) (i : Nat) : Str := p ++ str "[" ++ natRender i ++ str "]"

/-- Rough Python `str(v)` for scalar values, used only inside value-mismatch
messages (containers never reach that branch; float rendering simplified). -/
def pyStrJv : Jv → Str
  | .null => str "None"
  | .bool b => if b then str "True" else str "False"
  | .int n => intRender n
  | .float q => intRender q.num ++ str "/" ++ natRender q.den
  | .str s => s
  | .arr _ => str "[...]"
  | .obj _ => str "\x7b...\x7d"

/-- Type-mismatch difference message of `compare_json_objects`. -/
def typeMsg (p : Str) (expected actual : Jv) : Str :=
  str "Type mismatch at " ++ pathOrRoot p ++ str ": expected " ++ typeName expected
    ++ str ", got " ++ typeName actual

/-- Missing-key difference message of `compare_json_objects`. -/
def missingKeyMsg (p k : Str) : Str :=
  if p.isEmpty then str "Missing key: " ++ k else str "Missing key at " ++ p ++ str "." ++ k

/-- Extra-key difference message of `compare_json_objects`. -/
def extraKeyMsg (p k : Str) : Str :=
  if p.isEmpty then str "Extra key: " ++ k else str "Extra key at " ++ p ++ str "." ++ k

/-- List-length-mismatch difference message of `compare_json_objects`. -/
def lenMsg (p : Str) (expLen gotLen : Nat) : Str :=
  str "List length mismatch at " ++ pathOrRoot p ++ str ": expected " ++ natRender expLen
    ++ str " items, got " ++ natRender gotLen

/-- Value-mismatch difference message of `compare_json_objects`. -/
def valMsg (p : Str) (expected actual : Jv) : Str :=
  str "Value mismatch at " ++ pathOrRoot p ++ str ": expected " ++ pyStrJv expected
    ++ str ", got " ++ pyStrJv actual

/-- Python `==` on two scalars of the same runtime type (the comparator's
final branch, reached only after the type check succeeded). -/
def scalarEq : Jv → Jv → Bool
  | .null, .null => true
  | .bool a, .bool b => a = b
  | .int a, .int b => a = b
  | .float a, .float b => a = b
  | .str a, .str b => a = b
  | _, _ => false

theorem findVal_sizeOf {kvs : List (Str × Jv)} {k : Str} {v : Jv}
    (h : findVal kvs k = some v) : sizeOf v < sizeOf kvs := by
  induction kvs with
  | nil => simp [findVal] at h
  | cons kv rest ih =>
    obtain ⟨k', v'⟩ := kv
    by_cases hk : k' = k
    · simp [findVal, hk] at h
      subst h
      simp
      omega
    · simp [findVal, hk] at h
      have := ih h
      simp
      omega

mutual

/-- Difference list of `compare_json_objects(actual, expected, path)` from
`test-api-docs.py`: runtime-type mismatch short-circuits; dicts report missing
keys, then extra keys, then recurse into the keys of `expected` also present
in `actual`; lists report one length mismatch and recurse over the common
prefix; scalars report a value mismatch when unequal. -/
def cmpJ (actual expected : Jv) (path : Str) : List Str :=
  if typeName actual ≠ typeName expected then [typeMsg path expected actual]
  else
    match actual, expected with
    | .obj akvs, .obj ekvs =>
      (ekvs.filter (fun kv => !keyMem akvs kv.1)).map (fun kv => missingKeyMsg path kv.1)
        ++ (akvs.filter (fun kv => !keyMem ekvs kv.1)).map (fun kv => extraKeyMsg path kv.1)
        ++ cmpObjRec akvs ekvs path
    | .arr axs, .arr exs =>
      (if axs.length ≠ exs.length then [lenMsg path exs.length axs.length] else [])
        ++ cmpArr axs exs path 0
    | a, e => if scalarEq a e then [] else [valMsg path e a]
termination_by sizeOf actual + sizeOf expected
decreasing_by
  all_goals simp_wf
  all_goals omega

/-- The comparator's per-index list loop (`for i in range(min_len)`). -/
def cmpArr (axs exs : List Jv) (path : Str) (i : Nat) : List Str :=
  match axs, exs with
  | a :: as', e :: es' => cmpJ a e (idxPath path i) ++ cmpArr as' es' path (i + 1)
  | _, _ => []
termination_by sizeOf axs + sizeOf exs
decreasing_by
  all_goals simp_wf
  all_goals omega

/-- The comparator's common-key recursion (`for key in expected if key in actual`). -/
def cmpObjRec (akvs ekvs : List (Str × Jv)) (path : Str) : List Str :=
  match ekvs with
  | [] => []
  | (k, ev) :: rest =>
    (match hf : findVal akvs k with
     | some av => cmpJ av ev (keyPath path k)
     | none => [])
      ++ cmpObjRec akvs rest path
termination_by sizeOf akvs + sizeOf ekvs
decreasing_by
  all_goals simp_wf
  all_goals try omega
  all_goals have h9 := findVal_sizeOf hf
  all_goals omega

end

/-- `compare_json_objects` from `test-api-docs.py`: the `(are_equal,
differences)` pair. -/
def compare_json_objects (actual expected : Jv) (path : Str) : Bool × List Str :=
  ((cmpJ actual expected path).isEmpty, cmpJ actual expected path)

/-- Left-to-right traversal of a list with a fallible function, stopping at
the first failure (the Python list comprehension `[int(c.strip()) ...]` whose
`int()` may raise, caught by the enclosing `try`). -/
def mapMO {α β : Type} (f : α → Option β) : List α → Option (List β)
  | [] => some []
  | a :: as =>
    match f a with
    | none => none
    | some b =>
      match mapMO f as with
      | none => none
      | some bs => some (b :: bs)

/-- `parse_testable_entry` from `test-api-docs.py`: split on `/`, trim the
name, default the status codes to `[200]` when absent, parse the
comma-separated codes otherwise; any failure yields `(None, None)`.
Pieces after a second `/` are ignored, as in the source (`parts[1]`). -/
def parse_testable_entry (entry : Str) : Option Str × Option (List Int) :=
  match splitOnChar '/' entry with
  | [] => (none, none)
  | p0 :: restParts =>
    let example_name := pyStrip p0
    if example_name.isEmpty then (none, none)
    else
      match restParts with
      | [] => (some example_name, some [200])
      | p1 :: _ =>
        let codes_str := pyStrip p1
        if codes_str.isEmpty then (none, none)
        else
          match mapMO (fun c => pyInt (pyStrip c))
              ((splitOnChar ',' codes_str).filter (fun c => !(pyStrip c).isEmpty)) with
          | none => (none, none)
          | some codes =>
            if codes.isEmpty then (none, none) else (some example_name, some codes)

/-- Outcome of the external YAML decoder (`yaml.safe_load`): a decoded value
(Python `None` for an empty document is `Option.none`), or a `YAMLError`
carrying an optional 0-based problem-mark line and the error text. -/
inductive YRes where
  | ok (v : Option Jv)
  | err (mark : Option Nat) (msg : Str)

/-- Scanner for the non-greedy group of the front-matter regex
`^---[ \t]*\n(.*?)\n---[ \t]*\n?` (DOTALL): return the text before the
first occurrence of `\n---`; `none` when there is no such occurrence. -/
def findClose : Str → Option Str
  | [] => none
  | c :: rest =>
    if c = '\n' && (str "---").isPrefixOf rest then some []
    else (findClose rest).map (fun l => c :: l)

/-- The front-matter regex match of `parse_front_matter_with_errors`: opening
`---` at the start, optional spaces/tabs, a newline, then the non-greedy
enclosed group terminated by the first `\n---` (after which `[ \t]*\n?`
always matches, so nothing further is required). -/
def fmMatch (content : Str) : Option Str :=
  match content with
  | '-' :: '-' :: '-' :: r0 =>
    match r0.dropWhile (fun c => c = ' ' || c = '\t') with
    | '\n' :: body => findClose body
    | _ => none
  | _ => none

/-- The guidance check `re.match(r'^\s+---', content)`: at least one
whitespace character, then `---`. -/
def leadingWsDash (content : Str) : Bool :=
  match content with
  | c :: rest => isPySpace c && (str "---").isPrefixOf (rest.dropWhile isPySpace)
  | [] => false

/-- Error text for a front-matter delimiter with leading whitespace. -/
def wsErrMsg : Str :=
  str "Front matter delimiter has leading whitespace. The \x27---\x27 must be at the start of the line with no spaces or tabs before it."

/-- Error text for an unclosed front-matter block. -/
def noCloseMsg : Str :=
  str "Front matter opening delimiter found but no closing delimiter could be found. Ensure front matter ends with \x27---\x27 on its own line."

/-- Error text for absent front matter. -/
def noFmMsg : Str :=
  str "No front matter found. Add YAML front matter between --- delimiters at the start of the file.\nExample:\n---\nlayout: default\ndescription: Your description here\n---"

/-- Error text for invalid YAML inside the front matter block. -/
def yamlErrMsg (msg : Str) (eline : Option Nat) : Str :=
  str "Invalid YAML syntax in front matter: " ++ msg
    ++ (match eline with
        | some l => str "\nError on or near line " ++ natRender l ++ str "."
        | none => [])
    ++ str "\n\nCommon YAML issues:\n- Inconsistent indentation (use spaces, not tabs)\n- Unclosed quotes or brackets\n- Missing colons after keys"

/-- `parse_front_matter_with_errors` from `doc_test_utils.py`, parameterised
over the external YAML decoder.  On a regex match the decoded value is
returned as-is with no error; otherwise the three guidance failure classes
are distinguished; a decoder error reports the mark line plus 2. -/
def parse_front_matter_with_errors (yload : Str → YRes) (content : Str) :
    Option Jv × Option Str × Option Nat :=
  match fmMatch content with
  | some encl =>
    match yload encl with
    | .ok v => (v, none, none)
    | .err mark msg =>
      let eline := mark.map (fun l => l + 2)
      (none, some (yamlErrMsg msg eline), eline)
  | none =>
    if leadingWsDash content then (none, some wsErrMsg, some 1)
    else if (str "---").isPrefixOf (pyStrip content) then (none, some noCloseMsg, some 1)
    else (none, some noFmMsg, some 1)

/-- The backtick character (used by `_make_flexible_pattern`). -/
def tick : Char := Char.ofNat 96

/-- Regex `\s+`: require at least one whitespace character, consume maximally. -/
def eatWS1 : Str → Option Str
  | c :: rest => if isPySpace c then some (rest.dropWhile isPySpace) else none
  | [] => none

/-- Consume the literal word `w` case-insensitively (re.IGNORECASE). -/
def eatCI : Str → Str → Option Str
  | [], s => some s
  | _ :: _, [] => none
  | c :: cs, d :: ds => if c.toLower = d.toLower then eatCI cs ds else none

/-- Consume one optional backtick (regex `` `? ``). -/
def eatOptTick : Str → Str
  | c :: rest => if c = tick then rest else c :: rest
  | [] => []

/-- One flexible word of `_make_flexible_pattern`: `` `?word`? ``. -/
def eatWord (w s : Str) : Option Str := (eatCI w (eatOptTick s)).map eatOptTick

/-- The flexible words joined by `\s+`. -/
def matchWords : List Str → Str → Option Str
  | [], s => some s
  | [w], s => eatWord w s
  | w :: ws, s =>
    match eatWord w s with
    | none => none
    | some s1 =>
      match eatWS1 s1 with
      | none => none
      | some s2 => matchWords ws s2

/-- The heading regex `^###\#?\s+{flexible}\s+kind` of the section locator
(`extract_curl_command` / `extract_expected_response`), rendered as a small
hand-rolled matcher: three `#`, an optional fourth, whitespace, the example
name split on spaces with each word optionally backtick-wrapped, whitespace,
then the word `kind` (`request` or `response`), all case-insensitive; the
rest of the line is unconstrained. -/
def headingMatches (example_name kind : Str) (line : Str) : Bool :=
  match line with
  | '#' :: '#' :: '#' :: r0 =>
    let r1 := match r0 with
      | '#' :: r => r
      | _ => r0
    match eatWS1 r1 with
    | none => false
    | some r2 =>
      match matchWords (splitOnChar ' ' example_name) r2 with
      | none => false
      | some r3 =>
        match eatWS1 r3 with
        | none => false
        | some r4 => (eatCI kind r4).isSome
  | _ => false

/-- Does the line open a shell code fence
(`line.strip().startswith('```bash') or line.strip().startswith('```sh')`)? -/
def bashFence (l : Str) : Bool :=
  (str "```bash").isPrefixOf (pyStrip l) || (str "```sh").isPrefixOf (pyStrip l)

/-- Does the line open a JSON code fence (`line.strip().startswith('```json')`)? -/
def jsonFence (l : Str) : Bool := (str "```json").isPrefixOf (pyStrip l)

/-- `line.startswith('#')` on the raw line. -/
def headIsHash : Str → Bool
  | '#' :: _ => true
  | _ => false

/-- The shared line loop of `extract_curl_command` / `extract_expected_response`:
a heading match (re-checked on every line) turns `inEx` on and skips the line;
inside the example an opening fence turns `inCode` on and skips the line; a
bare ``` ``` ``` line while `inCode` stops the loop; otherwise the line is
collected when `inCode`, and then a line starting with `#` stops the loop. -/
def scanLines (matchH fence : Str → Bool) :
    List Str → Bool → Bool → List Str → List Str
  | [], _, _, acc => acc
  | l :: rest, inEx, inCode, acc =>
    if matchH l then scanLines matchH fence rest true inCode acc
    else if inEx then
      if fence l then scanLines matchH fence rest inEx true acc
      else if inCode && (pyStrip l == str "```") then acc
      else
        let acc1 := if inCode then acc ++ [l] else acc
        if headIsHash l then acc1
        else scanLines matchH fence rest inEx inCode acc1
    else scanLines matchH fence rest inEx inCode acc

/-- Split the document into lines and run the section-locator loop from its
initial state. -/
def collectSection (matchH fence : Str → Bool) (content : Str) : List Str :=
  scanLines matchH fence (splitOnChar '\n' content) false false []

/-- Exceptions the Python source can raise and not catch. -/
inductive PyExc where
  | attributeError : PyExc
  | typeError : PyExc
deriving DecidableEq

/-- `extract_curl_command` from `test-api-docs.py`.  `server_url` is the
dynamic value `test_config.get('server_url', '')`; when it is truthy but not
a string, Python raises `TypeError` inside `str.replace`. -/
def extract_curl_command (content : Str) (server_url : Jv) (example_name : Str) :
    Except PyExc (Option Str) :=
  let elems := collectSection (headingMatches example_name (str "request")) bashFence content
  if elems.isEmpty then .ok none
  else
    let s0 := pyStrip (joinWith (str "\n") elems)
    let s1 :=
      if !isSubStr (str "-i") s0 && !isSubStr (str "--include") s0 then
        replaceFirst s0 (str "curl") (str "curl -i")
      else s0
    if truthy server_url then
      match server_url with
      | .str u => .ok (some (replaceAll s1 (str "\x7bserver_url\x7d") u))
      | _ => .error .typeError
    else .ok (some s1)

/-- `extract_expected_response` from `test-api-docs.py`, parameterised over
the external JSON decoder (`json.loads`; decode failure gives Python `None`,
and a decoded JSON `null` is also Python `None`, so both map to `Jv.null`,
exactly as the caller's `is None` test cannot tell them apart). -/
def extract_expected_response (jparse : Str → Option Jv) (content : Str)
    (example_name : Str) : Jv :=
  let jsonLines := collectSection (headingMatches example_name (str "response")) jsonFence content
  if jsonLines.isEmpty then .null
  else
    match jparse (joinWith (str "\n") jsonLines) with
    | some v => v
    | none => .null

/-- Python `d.get(k, default)` under dynamic typing: `AttributeError` when the
receiver is not a dict. -/
def pyGet (m : Jv) (k : Str) (d : Jv) : Except PyExc Jv :=
  match m with
  | .obj kvs => .ok ((findVal kvs k).getD d)
  | _ => .error .attributeError

/-- Python `len(v)`: defined for strings, lists and dicts, `TypeError` otherwise. -/
def pyLen : Jv → Except PyExc Nat
  | .str s => .ok s.length
  | .arr xs => .ok xs.length
  | .obj kvs => .ok kvs.length
  | _ => .error .typeError

/-- Python iteration `for x in v`: list elements, string characters, or dict
keys; `TypeError` otherwise. -/
def pyIter : Jv → Except PyExc (List Jv)
  | .str s => .ok (s.map (fun c => .str [c]))
  | .arr xs => .ok xs
  | .obj kvs => .ok (kvs.map (fun kv => .str kv.1))
  | _ => .error .typeError

/-- `test_example` from `test-api-docs.py`, parameterised over the curl
executor (`execute_curl`: status code, headers, body-or-error-text) and the
JSON decoder.  Logging is side-effect free and omitted. -/
def test_example (ex : Str → Option Int × Option Str × Str) (jparse : Str → Option Jv)
    (content : Str) (test_config : Jv) (example_name : Str)
    (expected_codes : List Int) : Except PyExc Bool :=
  match pyGet test_config (str "server_url") (.str []) with
  | .error exc => .error exc
  | .ok su =>
    match extract_curl_command content su example_name with
    | .error exc => .error exc
    | .ok none => .ok false
    | .ok (some cmd) =>
      if cmd.isEmpty then .ok false
      else
        match ex cmd with
        | (none, _, _) => .ok false
        | (some code, _, body) =>
          if !expected_codes.contains code then .ok false
          else
            match jparse body with
            | none => .ok false
            | some actual =>
              let expected := extract_expected_response jparse content example_name
              if expected.isNull then .ok false
              else .ok (cmpJ actual expected []).isEmpty

/-- The per-entry loop of `test_file`: a malformed entry is an immediate
failure without running anything; otherwise `test_example` decides; a
non-string entry raises `AttributeError` inside `entry.split` (uncaught). -/
def runEntries (ex : Str → Option Int × Option Str × Str) (jparse : Str → Option Jv)
    (content : Str) (tc : Jv) : List Jv → Except PyExc (Nat × Nat)
  | [] => .ok (0, 0)
  | item :: rest =>
    match item with
    | .str s =>
      match parse_testable_entry s with
      | (none, _) =>
        match runEntries ex jparse content tc rest with
        | .error exc => .error exc
        | .ok pf => .ok (pf.1, pf.2 + 1)
      | (some name, codes?) =>
        match test_example ex jparse content tc name (codes?.getD [200]) with
        | .error exc => .error exc
        | .ok passed =>
          match runEntries ex jparse content tc rest with
          | .error exc => .error exc
          | .ok pf => .ok (if passed then (pf.1 + 1, pf.2) else (pf.1, pf.2 + 1))
    | _ => .error .attributeError

/-- `test_file` from `test-api-docs.py`.  `content?` is the
`read_markdown_file` result (`none` = unreadable file); `yload` the YAML
decoder; `validate` the `validate_front_matter_schema` collaborator reduced
to its `(is_valid, has_warnings)` contract; `ex`/`jparse` as in
`test_example`. -/
def test_file (content? : Option Str) (yload : Str → YRes)
    (validate : Jv → Bool × Bool) (ex : Str → Option Int × Option Str × Str)
    (jparse : Str → Option Jv) : Except PyExc (Nat × Nat × Nat) :=
  match content? with
  | none => .ok (0, 0, 0)
  | some content =>
    match (parse_front_matter_with_errors yload content).1 with
    | none => .ok (0, 0, 0)
    | some m =>
      if !truthy m then .ok (0, 0, 0)
      else if !(validate m).1 then .ok (0, 0, 0)
      else
        match pyGet m (str "test") (.obj []) with
        | .error exc => .error exc
        | .ok tc =>
          if !truthy tc then .ok (0, 0, 0)
          else
            match pyGet tc (str "testable") (.arr []) with
            | .error exc => .error exc
            | .ok testable =>
              if !truthy testable then .ok (0, 0, 0)
              else
                match pyLen testable with
                | .error exc => .error exc
                | .ok n =>
                  match pyIter testable with
                  | .error exc => .error exc
                  | .ok items =>
                    match runEntries ex jparse content tc items with
                    | .error exc => .error exc
                    | .ok pf => .ok (n, pf.1, pf.2)

/-- One component of a `jsonschema` validation-error path: a mapping key or a
sequence index. -/
inductive PathC where
  | s (v : Str) : PathC
  | n (v : Nat) : PathC

/-- A `jsonschema` `ValidationError` as consumed by
`categorize_validation_error`: the failing keyword (`error.validator`), the
error message, and `error.absolute_path`. -/
structure VError where
  validator : Str
  message : Str
  absolute_path : List PathC

/-- Python `str(p)` for a path component. -/
def pathCStr : PathC → Str
  | .s v => v
  | .n v => natRender v

/-- `'.'.flatten(str(p) for p in error.absolute_path)`. -/
def joinedPath (path : List PathC) : Str := joinWith (str ".") (path.map pathCStr)

/-- Python `==` between a path component and a member of the schema's
`required` list. -/
def pathCEqJv : PathC → Jv → Bool
  | .s v, .str w => v = w
  | .n v, .int m => (v : Int) = m
  | _, _ => false

/-- The schema's `required` value (`schema.get('required', [])`). -/
def schemaRequired (schema : Jv) : Jv :=
  match schema with
  | .obj kvs => (findVal kvs (str "required")).getD (.arr [])
  | _ => .arr []

/-- Python `p in required` for the categorizer (`required` is a list in every
real schema; a string receiver would be a substring test, modelled for
`PathC.s` only; other receivers are not modelled). -/
def pathCInReq (p : PathC) (req : Jv) : Bool :=
  match req with
  | .arr xs => xs.any (pathCEqJv p)
  | .str w =>
    match p with
    | .s v => isSubStr v w
    | _ => false
  | _ => false

/-- The apostrophe character. -/
def apos : Char := Char.ofNat 39

/-- `error.message.split("\x27")[1] if "\x27" in error.message else "unknown"`. -/
def missingFieldOf (message : Str) : Str :=
  if isSubStr [apos] message then
    match splitOnChar apos message with
    | _ :: f :: _ => f
    | _ => str "unknown"
  else str "unknown"

/-- `categorize_validation_error` from `schema_validator.py`: `required`
keyword failures are blocking; `enum` failures and
type/format/pattern/min/max/minLength/maxLength failures are blocking exactly
when the first path component is in the schema's `required` list; every
other keyword falls through to the optional-warning default. -/
def categorize_validation_error (e : VError) (schema : Jv) : Bool × Str :=
  if e.validator = str "required" then
    (true, str "Required field missing: " ++ missingFieldOf e.message)
  else if e.validator = str "enum" && !e.absolute_path.isEmpty then
    let field_name := joinedPath e.absolute_path
    match e.absolute_path with
    | p0 :: _ =>
      if pathCInReq p0 (schemaRequired schema) then
        (true, str "Invalid value for required field \x27" ++ field_name ++ str "\x27: " ++ e.message)
      else
        (false, str "Invalid value for optional field \x27" ++ field_name ++ str "\x27: " ++ e.message)
    | [] => (false, [])
  else if [str "type", str "format", str "pattern", str "minimum", str "maximum",
      str "minLength", str "maxLength"].contains e.validator then
    let field_name := joinedPath e.absolute_path
    match e.absolute_path with
    | p0 :: _ =>
      if pathCInReq p0 (schemaRequired schema) then
        (true, str "Invalid format for required field \x27" ++ field_name ++ str "\x27: " ++ e.message)
      else
        (false, str "Invalid format for optional field \x27" ++ field_name ++ str "\x27: " ++ e.message)
    | [] =>
      (false, str "Invalid format for optional field \x27" ++ field_name ++ str "\x27: " ++ e.message)
  else
    let field_name := if e.absolute_path.isEmpty then str "unknown" else joinedPath e.absolute_path
    (false, str "Validation issue in \x27" ++ field_name ++ str "\x27: " ++ e.message)

/-! ### Helper lemmas about the comparator -/

/-- Whether a value is a scalar (not a Python `dict` or `list`). -/
def isScalar : Jv → Bool
  | .arr _ => false
  | .obj _ => false
  | _ => true

/-- Modelled from the claim wording: JSON/Python value equality on scalars,
under which numerically equal values of different runtime types (such as `1`
and `1.0`, or `True` and `1`) compare equal. -/
def looseValueEq : Jv → Jv → Bool
  | .null, .null => true
  | .bool a, .bool b => a = b
  | .bool a, .int n => (if a then (1 : Int) else 0) = n
  | .int n, .bool a => n = (if a then (1 : Int) else 0)
  | .bool a, .float q => (if a then (1 : Rat) else 0) = q
  | .float q, .bool a => q = (if a then (1 : Rat) else 0)
  | .int n, .int m => n = m
  | .int n, .float q => (n : Rat) = q
  | .float q, .int n => q = (n : Rat)
  | .float a, .float b => a = b
  | .str a, .str b => a = b
  | _, _ => false

theorem cmpJ_type_mismatch (a e : Jv) (p : Str) (h : typeName a ≠ typeName e) :
    cmpJ a e p = [typeMsg p e a] := by
  rw [cmpJ]
  simp [h]
  all_goals rintro _ _ rfl rfl
  all_goals exact h rfl

theorem cmpArr_eq_enum (axs : List Jv) (exs : List Jv) (p : Str) (i : Nat) :
    cmpArr axs exs p i =
      (((axs.zip exs).enumFrom i).map (fun x => cmpJ x.2.1 x.2.2 (idxPath p x.1))).flatten := by
  induction axs generalizing exs i with
  | nil =>
    rw [cmpArr]
    simp
    exact fun a as' e es' h1 _ => List.noConfusion h1
  | cons a as ih =>
    cases exs with
    | nil =>
      rw [cmpArr]
      simp
      exact fun a1 as' e es' _ h2 => List.noConfusion h2
    | cons e es => rw [cmpArr]; simp [ih]

/-! ### C10 -/

/-- C10: `compare_json_objects` compares exact runtime types before values:
whenever the runtime types differ it records the single type-mismatch
difference and recurses no further; in particular the numerically equal pairs
`1` / `1.0` and `True` / `1` (equal under `looseValueEq`, the claim's "JSON
value equality") are reported unequal; and on scalars, reported equality
implies loose value equality, so reported equality is strictly finer. -/
theorem C10_exact_type_before_value :
    (∀ a e p, typeName a ≠ typeName e →
      compare_json_objects a e p = (false, [typeMsg p e a]))
    ∧ looseValueEq (Jv.int 1) (Jv.float 1) = true
    ∧ compare_json_objects (Jv.int 1) (Jv.float 1) [] =
        (false, [typeMsg [] (Jv.float 1) (Jv.int 1)])
    ∧ looseValueEq (Jv.bool true) (Jv.int 1) = true
    ∧ compare_json_objects (Jv.bool true) (Jv.int 1) [] =
        (false, [typeMsg [] (Jv.int 1) (Jv.bool true)])
    ∧ (∀ a e p, isScalar a = true → isScalar e = true →
        (compare_json_objects a e p).1 = true → looseValueEq a e = true) := by
  have hty : ∀ a e p, typeName a ≠ typeName e →
      compare_json_objects a e p = (false, [typeMsg p e a]) := by
    intro a e p h
    simp [compare_json_objects, cmpJ_type_mismatch a e p h]
  refine ⟨hty, by decide, ?_, by decide, ?_, ?_⟩
  · exact hty _ _ _ (by decide)
  · exact hty _ _ _ (by decide)
  · intro a e p hsa hse h
    by_cases ht : typeName a = typeName e
    · cases a <;> cases e <;>
        simp_all [typeName, str, isScalar, compare_json_objects, looseValueEq] <;>
        (rw [cmpJ] at h; simp [typeName, str, scalarEq] at h) <;> simp_all [scalarEq]
    · rw [hty a e p ht] at h
      simp at h

/-- Witness for C10 at a concrete type-mismatched input. -/
theorem C10_witness :
    typeName (Jv.str (str "x")) ≠ typeName Jv.null
    ∧ compare_json_objects (Jv.str (str "x")) Jv.null [] =
        (false, [typeMsg [] Jv.null (Jv.str (str "x"))]) :=
  ⟨by decide, C10_exact_type_before_value.1 _ _ _ (by decide)⟩

/-! ### C8 -/

/-- C8: on arrays of different lengths, `compare_json_objects` reports
inequality, records exactly one length-mismatch difference (the head of the
difference list), and then recurses exactly over the overlapping prefix: the
remaining differences are the concatenation, for `i < min len len`, of the
recursive differences at `actual[i]` / `expected[i]` with path suffix `[i]`
(`zip` truncates at the shorter list and `enumFrom 0` supplies the indices). -/
theorem C8_array_length_mismatch (axs exs : List Jv) (p : Str)
    (h : axs.length ≠ exs.length) :
    compare_json_objects (Jv.arr axs) (Jv.arr exs) p =
      (false,
        lenMsg p exs.length axs.length ::
          (((axs.zip exs).enumFrom 0).map
            (fun x => cmpJ x.2.1 x.2.2 (idxPath p x.1))).flatten) := by
  have harr : cmpJ (Jv.arr axs) (Jv.arr exs) p =
      lenMsg p exs.length axs.length ::
        (((axs.zip exs).enumFrom 0).map
          (fun x => cmpJ x.2.1 x.2.2 (idxPath p x.1))).flatten := by
    rw [cmpJ]
    simp [typeName, h, cmpArr_eq_enum]
  simp [compare_json_objects, harr]

/-- Witness for C8 at concrete arrays of lengths 2 and 1. -/
theorem C8_witness :
    compare_json_objects (Jv.arr [Jv.int 1, Jv.int 2]) (Jv.arr [Jv.int 5]) [] =
      (false,
        lenMsg [] 1 2 ::
          ((([Jv.int 1, Jv.int 2].zip [Jv.int 5]).enumFrom 0).map
            (fun x => cmpJ x.2.1 x.2.2 (idxPath [] x.1))).flatten) :=
  C8_array_length_mismatch _ _ _ (by decide)

/-! ### C4 -/

/-- The claim's classification condition for a validation error: a `required`
keyword failure, or the violated field's top-level path component appearing
in the schema's `required` list. -/
def claimRequiredCond (e : VError) (schema : Jv) : Bool :=
  (e.validator == str "required")
    || (match e.absolute_path with
        | p0 :: _ => pathCInReq p0 (schemaRequired schema)
        | [] => false)

/-- C4 counterexample: a `minItems` violation on the required field `test` is
classified as an optional warning by `categorize_validation_error`, although
the claim's condition (top-level path component in the schema's `required`
list) holds, so the claimed equivalence fails at this input. -/
theorem C4_counterexample :
    ¬ (((categorize_validation_error
          ⟨str "minItems", str "too few", [PathC.s (str "test")]⟩
          (Jv.obj [(str "required", Jv.arr [Jv.str (str "test")])])).1 = true)
        ↔ (claimRequiredCond
            ⟨str "minItems", str "too few", [PathC.s (str "test")]⟩
            (Jv.obj [(str "required", Jv.arr [Jv.str (str "test")])]) = true)) := by
  decide

/-- C4 (amended): `categorize_validation_error` classifies a violation as
required (blocking) iff it is a `required`-keyword failure, or its keyword is
`enum` or one of `type`/`format`/`pattern`/`minimum`/`maximum`/`minLength`/
`maxLength` and the violated field's top-level path component appears in the
schema's `required` list; violations of any other keyword are optional-field
warnings even when the field is required. -/
theorem C4_categorize_amended (e : VError) (schema : Jv) :
    (categorize_validation_error e schema).1 =
      ((e.validator == str "required")
        || (((e.validator == str "enum")
              || [str "type", str "format", str "pattern", str "minimum", str "maximum",
                  str "minLength", str "maxLength"].contains e.validator)
            && (match e.absolute_path with
                | p0 :: _ => pathCInReq p0 (schemaRequired schema)
                | [] => false))) := by
  obtain ⟨v, msg, path⟩ := e
  simp only [categorize_validation_error]
  by_cases h1 : v = str "required"
  · simp +decide [h1]
  · by_cases h2 : v = str "enum"
    · cases path with
      | nil => simp +decide [h1, h2]
      | cons p0 rest =>
        by_cases h3 : pathCInReq p0 (schemaRequired schema)
        · simp +decide [h1, h2, h3]
        · simp +decide [h1, h2, h3]
    · by_cases h4 : v = str "type" ∨ v = str "format" ∨ v = str "pattern" ∨
          v = str "minimum" ∨ v = str "maximum" ∨ v = str "minLength" ∨ v = str "maxLength"
      · rcases h4 with rfl | rfl | rfl | rfl | rfl | rfl | rfl <;>
          (cases path with
          | nil => simp +decide
          | cons p0 rest =>
            by_cases h3 : pathCInReq p0 (schemaRequired schema) <;> simp +decide [h3])
      · cases path with
        | nil => simp +decide [h1, h2, h4]
        | cons p0 rest => simp +decide [h1, h2, h4]

/-- Witness for C4's amended theorem at a concrete `enum` error on a required
field. -/
theorem C4_witness :
    (categorize_validation_error ⟨str "enum", str "bad value", [PathC.s (str "layout")]⟩
        (Jv.obj [(str "required", Jv.arr [Jv.str (str "layout")])])).1 =
      ((str "enum" == str "required")
        || (((str "enum" == str "enum")
              || [str "type", str "format", str "pattern", str "minimum", str "maximum",
                  str "minLength", str "maxLength"].contains (str "enum"))
            && pathCInReq (PathC.s (str "layout"))
                (schemaRequired (Jv.obj [(str "required", Jv.arr [Jv.str (str "layout")])])))) :=
  C4_categorize_amended _ _

/-! ### C9 -/

/-- The YAML decoding of the single document `test: frog` used as C9's
failing input (the standard reading of that document: a mapping whose `test`
key holds the string `frog`); every other input decodes to the empty
document. -/
def yloadFrog : Str → YRes := fun e =>
  if e = str "test: frog" then .ok (some (.obj [(str "test", .str (str "frog"))])) else .ok none

/-- C9: the code violates the no-uncaught-exception property.  On the
readable document `---\ntest: frog\n---\n` (front matter whose `test` key is
a scalar, with schema validation passing as it does when the schema file is
absent), `test_file` reaches `test_config.get('testable', [])` with a string
receiver and raises `AttributeError`, for every executor and JSON decoder. -/
theorem C9_test_file_uncaught_exception
    (ex : Str → Option Int × Option Str × Str) (jparse : Str → Option Jv) :
    test_file (some (str "---\ntest: frog\n---\n")) yloadFrog
        (fun _ => (true, false)) ex jparse = .error .attributeError := rfl

/-! ### C2 -/

theorem dashes_not_pre (x rest' : Str) (h : (str "---").isPrefixOf x = false) :
    (str "---").isPrefixOf (x ++ '\n' :: '-' :: '-' :: '-' :: rest') = false := by
  match x with
  | [] => simp [str, List.isPrefixOf]
  | [d1] => simp [str, List.isPrefixOf]
  | [d1, d2] => simp [str, List.isPrefixOf]
  | d1 :: d2 :: d3 :: x3 =>
    simp [str, List.isPrefixOf] at h ⊢
    intro h1 h2 h3
    exact h h1 h2 h3

theorem findClose_append (encl rest' : Str) (h : findClose encl = none) :
    findClose (encl ++ '\n' :: '-' :: '-' :: '-' :: rest') = some encl := by
  induction encl with
  | nil => simp [findClose, str, List.isPrefixOf]
  | cons c cs ih =>
    by_cases hcn : c = '\n'
    · subst hcn
      by_cases hp : (str "---").isPrefixOf cs = true
      · simp [findClose, hp] at h
      · simp only [Bool.not_eq_true] at hp
        simp [findClose, hp, Option.map_eq_none'] at h
        simp [findClose, dashes_not_pre cs rest' hp, ih h]
    · simp [findClose, hcn, Option.map_eq_none'] at h
      simp [findClose, hcn, ih h]

/-- C2: for a well-formed front-matter block -- the document opens with `---`
at column 0 of the first line and the enclosed text (which contains no earlier
`\n---` closer, so the block is closed by the following `---` line) is
followed by `\n---` -- whenever the YAML decoder returns a non-None mapping
`m` for the enclosed text, `parse_front_matter_with_errors` returns exactly
`(m, None, None)`: the metadata is the direct YAML decoding of the enclosed
text, and is a non-None mapping. -/
theorem C2_front_matter_valid (yload : Str → YRes) (encl rest : Str) (m : Jv)
    (hnc : findClose encl = none)
    (hy : yload encl = .ok (some m))
    (hm : m.isObj = true) :
    parse_front_matter_with_errors yload
        ('-' :: '-' :: '-' :: '\n' :: (encl ++ '\n' :: '-' :: '-' :: '-' :: rest))
      = (some m, none, none)
    ∧ m.isObj = true := by
  have hfm : fmMatch ('-' :: '-' :: '-' :: '\n' :: (encl ++ '\n' :: '-' :: '-' :: '-' :: rest))
      = some encl := by
    simp +decide [fmMatch, findClose_append encl rest hnc]
  exact ⟨by simp [parse_front_matter_with_errors, hfm, hy], hm⟩

/-- A concrete YAML decoder stub for the C2 witness: the standard decoding of
the single document `layout: default`. -/
def yloadLayout : Str → YRes := fun e =>
  if e = str "layout: default" then .ok (some (.obj [(str "layout", .str (str "default"))]))
  else .ok none

/-- Witness for C2 at a concrete document `---\nlayout: default\n---\n`. -/
theorem C2_witness :
    parse_front_matter_with_errors yloadLayout
        ('-' :: '-' :: '-' :: '\n' :: (str "layout: default" ++ '\n' :: '-' :: '-' :: '-' :: str "\n"))
      = (some (Jv.obj [(str "layout", Jv.str (str "default"))]), none, none)
    ∧ (Jv.obj [(str "layout", Jv.str (str "default"))]).isObj = true :=
  C2_front_matter_valid yloadLayout (str "layout: default") (str "\n") _ (by decide) rfl rfl

/-! ### C6 -/

theorem subSplit_eq {pat : Str} : ∀ {s a b : Str}, subSplit pat s = some (a, b) →
    s = a ++ pat ++ b := by
  intro s
  induction s with
  | nil => intro a b h; simp [subSplit] at h
  | cons c rest ih =>
    intro a b h
    by_cases hp : pat.isPrefixOf (c :: rest) = true
    · rw [subSplit, if_pos hp] at h
      obtain ⟨t, ht⟩ := List.isPrefixOf_iff_prefix.mp hp
      injection h with h1
      obtain ⟨rfl, rfl⟩ := Prod.mk.inj h1.symm
      rw [← ht, List.drop_left]
      simp [← ht]
    · rw [subSplit, if_neg hp] at h
      match hs : subSplit pat rest with
      | none => rw [hs] at h; simp at h
      | some ab =>
        rw [hs] at h
        simp at h
        obtain ⟨h1, h2⟩ := h
        have := ih hs
        obtain ⟨a1, b1⟩ := ab
        simp at this h1 h2
        subst h1 h2
        simp [this]

theorem subSplit_leftmost {pat : Str} : ∀ {s a b : Str}, subSplit pat s = some (a, b) →
    ∀ a2 b2, s = a2 ++ pat ++ b2 → a.length ≤ a2.length := by
  intro s
  induction s with
  | nil => intro a b h; simp [subSplit] at h
  | cons c rest ih =>
    intro a b h a2 b2 heq
    by_cases hp : pat.isPrefixOf (c :: rest) = true
    · rw [subSplit, if_pos hp] at h
      injection h with h1
      obtain ⟨rfl, rfl⟩ := Prod.mk.inj h1.symm
      simp
    · rw [subSplit, if_neg hp] at h
      match hs : subSplit pat rest with
      | none => rw [hs] at h; simp at h
      | some ab =>
        rw [hs] at h
        simp at h
        obtain ⟨h1, h2⟩ := h
        obtain ⟨a1, b1⟩ := ab
        simp at h1 h2
        subst h1 h2
        cases a2 with
        | nil =>
          exfalso
          apply hp
          apply List.isPrefixOf_iff_prefix.mpr
          exact ⟨b2, by simpa using heq.symm⟩
        | cons c2 a2' =>
          simp at heq
          exact Nat.succ_le_succ (ih hs a2' b2 (by simpa [List.append_assoc] using heq.2))

/-- C6: for an extracted request text (nonempty collected section) that lacks
the `-i` and `--include` substrings (the code's reading of "no explicit
include-headers flag") and contains the invocation keyword `curl`
(leftmost-split as `a ++ "curl" ++ b` with `a` before the first occurrence),
and a truthy string server URL, `extract_curl_command` injects `-i` exactly
once immediately after that first `curl` and then replaces every
`{server_url}` placeholder with the resolved server URL. -/
theorem C6_request_postprocessing (content u name : Str) (elems : List Str) (a b : Str)
    (hel : collectSection (headingMatches name (str "request")) bashFence content = elems)
    (hne : elems ≠ [])
    (hni : isSubStr (str "-i") (pyStrip (joinWith (str "\n") elems)) = false)
    (hninc : isSubStr (str "--include") (pyStrip (joinWith (str "\n") elems)) = false)
    (hsp : subSplit (str "curl") (pyStrip (joinWith (str "\n") elems)) = some (a, b))
    (hu : u ≠ []) :
    extract_curl_command content (.str u) name =
      .ok (some (replaceAll (a ++ str "curl -i" ++ b) (str "\x7bserver_url\x7d") u))
    ∧ pyStrip (joinWith (str "\n") elems) = a ++ str "curl" ++ b
    ∧ (∀ a2 b2, pyStrip (joinWith (str "\n") elems) = a2 ++ str "curl" ++ b2 →
        a.length ≤ a2.length) := by
  refine ⟨?_, subSplit_eq hsp, fun a2 b2 h2 => subSplit_leftmost hsp a2 b2 h2⟩
  cases elems with
  | nil => exact absurd rfl hne
  | cons e es =>
    simp only [extract_curl_command, hel]
    simp [isSubStr] at hni hninc
    simp [replaceFirst, hsp, truthy, hu]
    rw [if_pos ⟨by simp +decide [isSubStr, hni.2], by simp +decide [isSubStr, hninc.2]⟩]

/-- Witness for C6 at the source docstring's own example request. -/
theorem C6_witness :
    extract_curl_command (str "### GET example request\n```bash\ncurl \x7bserver_url\x7d/users\n```")
        (.str (str "http://localhost:3000")) (str "GET example") =
      .ok (some (replaceAll ([] ++ str "curl -i" ++ str " \x7bserver_url\x7d/users")
        (str "\x7bserver_url\x7d") (str "http://localhost:3000")))
    ∧ pyStrip (joinWith (str "\n") [str "curl \x7bserver_url\x7d/users"]) =
        [] ++ str "curl" ++ str " \x7bserver_url\x7d/users"
    ∧ (∀ a2 b2, pyStrip (joinWith (str "\n") [str "curl \x7bserver_url\x7d/users"]) =
          a2 ++ str "curl" ++ b2 → List.length ([] : Str) ≤ a2.length) :=
  C6_request_postprocessing _ _ _ [str "curl \x7bserver_url\x7d/users"] [] _
    (by decide) (by decide) (by decide) (by decide) (by decide) (by decide)

/-! ### Split/join helper lemmas -/

theorem splitOnChar_not_mem {sep : Char} : ∀ {s : Str}, sep ∉ s → splitOnChar sep s = [s] := by
  intro s
  induction s with
  | nil => intro _; rfl
  | cons c rest ih =>
    intro h
    have hc : ¬c = sep := fun he => h (he ▸ List.mem_cons_self c rest)
    have hr : sep ∉ rest := fun hm => h (List.mem_cons_of_mem c hm)
    rw [splitOnChar, if_neg hc, ih hr]

theorem splitOnChar_append_sep {sep : Char} : ∀ {x t : Str}, sep ∉ x →
    splitOnChar sep (x ++ sep :: t) = x :: splitOnChar sep t := by
  intro x
  induction x with
  | nil => intro t _; simp [splitOnChar]
  | cons c rest ih =>
    intro t h
    have hc : ¬c = sep := fun he => h (he ▸ List.mem_cons_self c rest)
    have hr : sep ∉ rest := fun hm => h (List.mem_cons_of_mem c hm)
    rw [List.cons_append, splitOnChar, if_neg hc, ih hr]

theorem splitOnChar_join {sep : Char} : ∀ {ps : List Str}, ps ≠ [] →
    (∀ p ∈ ps, sep ∉ p) → splitOnChar sep (joinWith [sep] ps) = ps := by
  intro ps
  induction ps with
  | nil => intro h; exact absurd rfl h
  | cons p rest ih =>
    intro _ hmem
    cases rest with
    | nil => exact splitOnChar_not_mem (hmem p (List.mem_cons_self p []))
    | cons q qs =>
      have hp : sep ∉ p := hmem p (List.mem_cons_self _ _)
      have hrest : ∀ r ∈ q :: qs, sep ∉ r := fun r hr => hmem r (List.mem_cons_of_mem _ hr)
      rw [joinWith, List.append_assoc, List.singleton_append, splitOnChar_append_sep hp,
        ih (List.cons_ne_nil q qs) hrest]
      exact fun h => List.noConfusion h

/-! ### Scanner helper lemmas -/

theorem scan_seek (matchH fence : Str → Bool) :
    ∀ (pre0 : List Str) (rest : List Str) (inCode : Bool) (acc : List Str),
    (∀ l ∈ pre0, matchH l = false) →
    scanLines matchH fence (pre0 ++ rest) false inCode acc =
      scanLines matchH fence rest false inCode acc := by
  intro pre0
  induction pre0 with
  | nil => intro rest inCode acc _; rfl
  | cons l ls ih =>
    intro rest inCode acc h
    have hl : matchH l = false := (h l (List.mem_cons_self _ _))
    rw [List.cons_append, scanLines]
    simp [hl]
    exact ih rest inCode acc (fun x hx => h x (List.mem_cons_of_mem _ hx))

theorem scan_inert (matchH fence : Str → Bool) :
    ∀ (pre : List Str) (rest : List Str) (acc : List Str),
    (∀ l ∈ pre, matchH l = false ∧ fence l = false ∧ headIsHash l = false) →
    scanLines matchH fence (pre ++ rest) true false acc =
      scanLines matchH fence rest true false acc := by
  intro pre
  induction pre with
  | nil => intro rest acc _; rfl
  | cons l ls ih =>
    intro rest acc h
    obtain ⟨h1, h2, h3⟩ := h l (List.mem_cons_self _ _)
    rw [List.cons_append, scanLines]
    simp [h1, h2, h3]
    exact ih rest acc (fun x hx => h x (List.mem_cons_of_mem _ hx))

theorem scan_collect (matchH fence : Str → Bool) :
    ∀ (block : List Str) (rest : List Str) (acc : List Str),
    (∀ l ∈ block, matchH l = false ∧ fence l = false ∧ pyStrip l ≠ str "```"
      ∧ headIsHash l = false) →
    scanLines matchH fence (block ++ rest) true true acc =
      scanLines matchH fence rest true true (acc ++ block) := by
  intro block
  induction block with
  | nil => intro rest acc _; simp
  | cons l ls ih =>
    intro rest acc h
    obtain ⟨h1, h2, h3, h4⟩ := h l (List.mem_cons_self _ _)
    rw [List.cons_append, scanLines]
    simp [h1, h2, h3, h4]
    rw [ih rest (acc ++ [l]) (fun x hx => h x (List.mem_cons_of_mem _ hx))]
    simp

/-! ### C3 -/

/-- C3 counterexample: inside the first fenced `bash` block of the matching
request section, the line `# c` is collected and then terminates collection
(the heading check is not guarded by the in-code-block state), so the
collected section is `["curl x", "# c"]` and not every line of the fenced
block up to its closing fence (`["curl x", "# c", "tail"]`). -/
theorem C3_counterexample :
    collectSection (headingMatches (str "GET example") (str "request")) bashFence
        (str "### GET example request\n```bash\ncurl x\n# c\ntail\n```")
      = [str "curl x", str "# c"]
    ∧ collectSection (headingMatches (str "GET example") (str "request")) bashFence
        (str "### GET example request\n```bash\ncurl x\n# c\ntail\n```")
      ≠ [str "curl x", str "# c", str "tail"] := by
  constructor
  · decide
  · decide

/-- C3 (amended): once the matching heading is found (earlier lines match
nothing), the scanner collects the lines of the first fenced code block with
the expected language tag up to its closing fence, except that a collected
line beginning with `#` is kept and then terminates collection immediately;
and if a heading line (a line starting with `#` that does not re-match the
heading pattern) is encountered before such a fence, the section is empty, so
`extract_curl_command` returns `None` and `extract_expected_response` returns
the `null` sentinel. -/
theorem C3_section_scan_amended :
    (∀ (matchH fence : Str → Bool) pre0 hdr sect inCode acc,
      (∀ l ∈ pre0, matchH l = false) → matchH hdr = true →
      scanLines matchH fence (pre0 ++ hdr :: sect) false inCode acc =
        scanLines matchH fence sect true inCode acc)
    ∧ (∀ (matchH fence : Str → Bool) pre h rest,
        (∀ l ∈ pre, matchH l = false ∧ fence l = false ∧ headIsHash l = false) →
        matchH h = false → fence h = false → headIsHash h = true →
        scanLines matchH fence (pre ++ h :: rest) true false [] = [])
    ∧ (∀ (matchH fence : Str → Bool) pre f block closer rest,
        (∀ l ∈ pre, matchH l = false ∧ fence l = false ∧ headIsHash l = false) →
        matchH f = false → fence f = true →
        (∀ l ∈ block, matchH l = false ∧ fence l = false ∧ pyStrip l ≠ str "```"
          ∧ headIsHash l = false) →
        matchH closer = false → fence closer = false → pyStrip closer = str "```" →
        scanLines matchH fence (pre ++ f :: (block ++ closer :: rest)) true false [] = block)
    ∧ (∀ (matchH fence : Str → Bool) pre f block1 h rest,
        (∀ l ∈ pre, matchH l = false ∧ fence l = false ∧ headIsHash l = false) →
        matchH f = false → fence f = true →
        (∀ l ∈ block1, matchH l = false ∧ fence l = false ∧ pyStrip l ≠ str "```"
          ∧ headIsHash l = false) →
        matchH h = false → fence h = false → pyStrip h ≠ str "```" → headIsHash h = true →
        scanLines matchH fence (pre ++ f :: (block1 ++ h :: rest)) true false [] =
          block1 ++ [h])
    ∧ (∀ (name : Str) (url : Jv) lines pre0 hdr pre h rest,
        lines = pre0 ++ hdr :: (pre ++ h :: rest) →
        (∀ l ∈ lines, '\n' ∉ l) →
        (∀ l ∈ pre0, headingMatches name (str "request") l = false) →
        headingMatches name (str "request") hdr = true →
        (∀ l ∈ pre, headingMatches name (str "request") l = false ∧ bashFence l = false
          ∧ headIsHash l = false) →
        headingMatches name (str "request") h = false → bashFence h = false →
        headIsHash h = true →
        extract_curl_command (joinWith (str "\n") lines) url name = .ok none)
    ∧ (∀ (name : Str) (jparse : Str → Option Jv) lines pre0 hdr pre h rest,
        lines = pre0 ++ hdr :: (pre ++ h :: rest) →
        (∀ l ∈ lines, '\n' ∉ l) →
        (∀ l ∈ pre0, headingMatches name (str "response") l = false) →
        headingMatches name (str "response") hdr = true →
        (∀ l ∈ pre, headingMatches name (str "response") l = false ∧ jsonFence l = false
          ∧ headIsHash l = false) →
        headingMatches name (str "response") h = false → jsonFence h = false →
        headIsHash h = true →
        extract_expected_response jparse (joinWith (str "\n") lines) name = Jv.null) := by
  have hseek := scan_seek
  have hinert := scan_inert
  have hcollect := scan_collect
  have habort : ∀ (matchH fence : Str → Bool) pre h rest,
      (∀ l ∈ pre, matchH l = false ∧ fence l = false ∧ headIsHash l = false) →
      matchH h = false → fence h = false → headIsHash h = true →
      scanLines matchH fence (pre ++ h :: rest) true false [] = [] := by
    intro matchH fence pre h rest hpre h1 h2 h3
    rw [scan_inert matchH fence pre (h :: rest) [] hpre, scanLines]
    simp [h1, h2, h3]
  have hstep : ∀ (matchH fence : Str → Bool) pre0 hdr sect inCode acc,
      (∀ l ∈ pre0, matchH l = false) → matchH hdr = true →
      scanLines matchH fence (pre0 ++ hdr :: sect) false inCode acc =
        scanLines matchH fence sect true inCode acc := by
    intro matchH fence pre0 hdr sect inCode acc hp hh
    rw [scan_seek matchH fence pre0 (hdr :: sect) inCode acc hp, scanLines]
    simp [hh]
  have hfull : ∀ (matchH fence : Str → Bool) pre f block closer rest,
      (∀ l ∈ pre, matchH l = false ∧ fence l = false ∧ headIsHash l = false) →
      matchH f = false → fence f = true →
      (∀ l ∈ block, matchH l = false ∧ fence l = false ∧ pyStrip l ≠ str "```"
        ∧ headIsHash l = false) →
      matchH closer = false → fence closer = false → pyStrip closer = str "```" →
      scanLines matchH fence (pre ++ f :: (block ++ closer :: rest)) true false [] = block := by
    intro matchH fence pre f block closer rest hpre hf1 hf2 hblock hc1 hc2 hc3
    rw [scan_inert matchH fence pre _ [] hpre, scanLines]
    simp [hf1, hf2]
    rw [scan_collect matchH fence block _ [] hblock, scanLines]
    simp [hc1, hc2, hc3]
  have htrunc : ∀ (matchH fence : Str → Bool) pre f block1 h rest,
      (∀ l ∈ pre, matchH l = false ∧ fence l = false ∧ headIsHash l = false) →
      matchH f = false → fence f = true →
      (∀ l ∈ block1, matchH l = false ∧ fence l = false ∧ pyStrip l ≠ str "```"
        ∧ headIsHash l = false) →
      matchH h = false → fence h = false → pyStrip h ≠ str "```" → headIsHash h = true →
      scanLines matchH fence (pre ++ f :: (block1 ++ h :: rest)) true false [] =
        block1 ++ [h] := by
    intro matchH fence pre f block1 h rest hpre hf1 hf2 hblock h1 h2 h3 h4
    rw [scan_inert matchH fence pre _ [] hpre, scanLines]
    simp [hf1, hf2]
    rw [scan_collect matchH fence block1 _ [] hblock, scanLines]
    simp [h1, h2, h3, h4]
  have hnone : ∀ (matchH fence : Str → Bool) lines pre0 hdr pre h rest,
      lines = pre0 ++ hdr :: (pre ++ h :: rest) →
      (∀ l ∈ pre0, matchH l = false) → matchH hdr = true →
      (∀ l ∈ pre, matchH l = false ∧ fence l = false ∧ headIsHash l = false) →
      matchH h = false → fence h = false → headIsHash h = true →
      scanLines matchH fence lines false false [] = [] := by
    intro matchH fence lines pre0 hdr pre h rest hl hp0 hh hpre h1 h2 h3
    subst hl
    rw [hstep matchH fence pre0 hdr _ false [] hp0 hh]
    exact habort matchH fence pre h rest hpre h1 h2 h3
  refine ⟨hstep, habort, hfull, htrunc, ?_, ?_⟩
  · intro name url lines pre0 hdr pre h rest hl hnl hp0 hh hpre h1 h2 h3
    have hlines : splitOnChar '\n' (joinWith (str "\n") lines) = lines := by
      have : lines ≠ [] := by rw [hl]; simp
      exact splitOnChar_join this hnl
    rw [extract_curl_command]
    simp only [collectSection, hlines]
    rw [hnone _ _ lines pre0 hdr pre h rest hl hp0 hh hpre h1 h2 h3]
    rfl
  · intro name jparse lines pre0 hdr pre h rest hl hnl hp0 hh hpre h1 h2 h3
    have hlines : splitOnChar '\n' (joinWith (str "\n") lines) = lines := by
      have : lines ≠ [] := by rw [hl]; simp
      exact splitOnChar_join this hnl
    rw [extract_expected_response]
    simp only [collectSection, hlines]
    rw [hnone _ _ lines pre0 hdr pre h rest hl hp0 hh hpre h1 h2 h3]
    rfl

/-- Witness for C3's amended theorem: a concrete full-block collection and a
concrete truncated collection. -/
theorem C3_witness :
    scanLines (headingMatches (str "GET example") (str "request")) bashFence
        ([str "text"] ++ str "```bash" :: ([str "curl x", str "echo y"] ++ str "```" :: [str "after"]))
        true false [] = [str "curl x", str "echo y"]
    ∧ scanLines (headingMatches (str "GET example") (str "request")) bashFence
        ([str "text"] ++ str "```bash" :: ([str "curl x"] ++ str "# c" :: [str "tail", str "```"]))
        true false [] = [str "curl x"] ++ [str "# c"] :=
  ⟨C3_section_scan_amended.2.2.1 _ _ [str "text"] (str "```bash")
      [str "curl x", str "echo y"] (str "```") [str "after"]
      (by decide) (by decide) (by decide) (by decide) (by decide) (by decide) (by decide),
    C3_section_scan_amended.2.2.2.1 _ _ [str "text"] (str "```bash")
      [str "curl x"] (str "# c") [str "tail", str "```"]
      (by decide) (by decide) (by decide) (by decide) (by decide) (by decide) (by decide) (by decide)⟩

/-! ### C1 -/

/-- C1: `test_example` returns True iff all of: the request block is found
(a truthy command string is extracted), execution yields a status code, that
status is in the expected set, the body parses as JSON, the documented
response extractor yields a usable value (the source cannot distinguish a
missing or malformed section from a documented JSON `null`, both being
Python `None`), and the structural comparison reports equality.  When the
request section is absent, it returns False for every executor and decoder,
without consulting the executor. -/
theorem C1_test_example_iff :
    (∀ (ex : Str → Option Int × Option Str × Str) (jparse : Str → Option Jv)
        (content : Str) (tc : Jv) (name : Str) (codes : List Int) (su : Jv),
      pyGet tc (str "server_url") (.str []) = .ok su →
      (test_example ex jparse content tc name codes = .ok true ↔
        ∃ cmd, extract_curl_command content su name = .ok (some cmd) ∧ cmd ≠ [] ∧
          ∃ code, (ex cmd).1 = some code ∧ code ∈ codes ∧
            ∃ actual, jparse (ex cmd).2.2 = some actual ∧
              (extract_expected_response jparse content name).isNull = false ∧
              (compare_json_objects actual
                (extract_expected_response jparse content name) []).1 = true))
    ∧ (∀ (ex : Str → Option Int × Option Str × Str) (jparse : Str → Option Jv)
        (content : Str) (tc : Jv) (name : Str) (codes : List Int) (su : Jv),
        pyGet tc (str "server_url") (.str []) = .ok su →
        extract_curl_command content su name = .ok none →
        test_example ex jparse content tc name codes = .ok false) := by
  constructor
  · intro ex jparse content tc name codes su hsu
    rw [test_example, hsu]
    simp only []
    cases hext : extract_curl_command content su name with
    | error exc => simp [hext]
    | ok cmd? =>
      cases cmd? with
      | none => simp [hext]
      | some cmd =>
        simp only []
        by_cases hemp : cmd.isEmpty
        · rw [if_pos hemp]
          have hc : cmd = [] := List.isEmpty_iff.mp hemp
          simp [hc]
        · rw [if_neg (by simpa using hemp)]
          have hcmd : cmd ≠ [] := by simpa [List.isEmpty_iff] using hemp
          match hex : ex cmd with
          | (none, hd, bd) => simp [hex, hcmd]
          | (some code, hd, bd) =>
            simp only []
            by_cases hcode : codes.contains code
            · have hmem : code ∈ codes := by simpa using hcode
              rw [if_neg (by simp [hmem])]
              cases hjp : jparse bd with
              | none => simp [hex, hjp, hcmd]
              | some actual =>
                simp only []
                by_cases hnull : (extract_expected_response jparse content name).isNull
                · rw [if_pos hnull]
                  simp [hex, hjp, hcmd, hnull]
                · rw [if_neg (by simpa using hnull)]
                  simp only [Bool.not_eq_true] at hnull
                  simp [hex, hjp, hcmd, hnull, hmem, compare_json_objects]
            · have hmem : ¬code ∈ codes := by
                intro hm
                exact hcode (by simpa using hm)
              rw [if_pos (by simp [hmem])]
              simp [hex, hcmd]
              intro hm
              exact absurd hm hmem
  · intro ex jparse content tc name codes su hsu hext
    rw [test_example, hsu]
    simp only []
    rw [hext]

/-- Concrete JSON decoder stub for the C1 witness: decodes the document `1`. -/
def jparseOne : Str → Option Jv := fun s => if s = str "1" then some (.int 1) else none

/-- Concrete executor stub for the C1 witness: every command succeeds with
HTTP 200 and body `1`. -/
def exOk : Str → Option Int × Option Str × Str := fun _ => (some 200, some [], str "1")

/-- Witness for C1: a passing end-to-end example (request and response
sections present, status 200 expected, bodies equal). -/
theorem C1_witness :
    test_example exOk jparseOne
      (str "### GET example request\n```bash\ncurl /users\n```\n### GET example response\n```json\n1\n```")
      (.obj []) (str "GET example") [200] = .ok true := by
  apply (C1_test_example_iff.1 exOk jparseOne _ (.obj []) (str "GET example") [200]
    (.str []) rfl).mpr
  refine ⟨str "curl -i /users", rfl, by decide, 200, rfl, by decide,
    .int 1, rfl, rfl, ?_⟩
  have : extract_expected_response jparseOne
      (str "### GET example request\n```bash\ncurl /users\n```\n### GET example response\n```json\n1\n```")
      (str "GET example") = .int 1 := rfl
  rw [this]
  simp +decide [compare_json_objects, cmpJ, typeName, scalarEq]

/-! ### C7 support lemmas -/

theorem charVal_ofNat_digit {d : Nat} (hd : d < 10) : (Char.ofNat (48 + d)).toNat - 48 = d := by
  interval_cases d <;> decide

theorem isDigit_ofNat_digit {d : Nat} (hd : d < 10) : (Char.ofNat (48 + d)).isDigit = true := by
  interval_cases d <;> decide

theorem isDigit_not_space {c : Char} (h : c.isDigit = true) : isPySpace c = false := by
  by_contra hs
  simp only [Bool.not_eq_false] at hs
  simp only [isPySpace, Bool.or_eq_true, decide_eq_true_eq] at hs
  rcases hs with ((((h1 | h1) | h1) | h1) | h1) | h1 <;> (subst h1; exact absurd h (by decide))

theorem natRender_digits {n : Nat} : ∀ c ∈ natRender n, c.isDigit = true := by
  intro c hc
  unfold natRender at hc
  by_cases h0 : n = 0
  · simp [h0] at hc
    subst hc
    decide
  · simp [h0] at hc
    obtain ⟨d, hd, rfl⟩ := hc
    exact isDigit_ofNat_digit (Nat.digits_lt_base (by norm_num) hd)

theorem natRender_ne_nil (n : Nat) : natRender n ≠ [] := by
  unfold natRender
  by_cases h0 : n = 0
  · simp [h0]
  · simp [h0, Nat.digits_ne_nil_iff_ne_zero.mpr h0]

theorem underscoreRest_digits : ∀ {rest : Str}, (∀ c ∈ rest, c.isDigit = true) →
    underscoreRest rest = true := by
  intro rest
  induction rest with
  | nil => intro _; rfl
  | cons c cs ih =>
    intro h
    have hc : c.isDigit = true := h c (List.mem_cons_self _ _)
    have hcu : ¬c = '_' := by
      rintro rfl
      exact absurd hc (by decide)
    rw [underscoreRest.eq_def]
    simp only []
    rw [if_neg hcu]
    simp [hc, ih (fun x hx => h x (List.mem_cons_of_mem _ hx))]

theorem digitsVal_natRender (n : Nat) : digitsVal (natRender n) = n := by
  unfold digitsVal natRender
  by_cases h0 : n = 0
  · simp [h0, Nat.ofDigits]
  · rw [if_neg h0]
    have hmap : ((Nat.digits 10 n).reverse.map (fun d => Char.ofNat (48 + d))).map
        (fun c => c.toNat - 48) = (Nat.digits 10 n).reverse := by
      rw [List.map_map]
      have : ∀ d ∈ (Nat.digits 10 n).reverse,
          ((fun c => c.toNat - 48) ∘ fun d => Char.ofNat (48 + d)) d = id d := by
        intro d hd
        have hd10 : d < 10 := Nat.digits_lt_base (by norm_num) (List.mem_reverse.mp hd)
        simp [charVal_ofNat_digit hd10]
      rw [List.map_congr_left this, List.map_id]
    rw [hmap, List.reverse_reverse, Nat.ofDigits_digits]

theorem parseNatDigits_natRender (n : Nat) : parseNatDigits (natRender n) = some n := by
  rcases hnr : natRender n with _ | ⟨c, rest⟩
  · exact absurd hnr (natRender_ne_nil n)
  · have hdig : ∀ x ∈ c :: rest, x.isDigit = true := by
      intro x hx
      rw [← hnr] at hx
      exact natRender_digits x hx
    have hc : c.isDigit = true := hdig c (List.mem_cons_self _ _)
    have hrest : ∀ x ∈ rest, x.isDigit = true := fun x hx => hdig x (List.mem_cons_of_mem _ hx)
    have hfilter : (c :: rest).filter (fun x => x != '_') = c :: rest := by
      rw [List.filter_eq_self]
      intro a ha
      have had : a.isDigit = true := hdig a ha
      have hne : ¬a = '_' := by
        rintro rfl
        exact absurd had (by decide)
      simpa using hne
    rw [parseNatDigits, hc, underscoreRest_digits hrest,
      if_pos (by decide : (true && true) = true), hfilter, ← hnr, digitsVal_natRender]

theorem intRender_chars (i : Int) : ∀ c ∈ intRender i, c = '-' ∨ c.isDigit = true := by
  intro c hc
  unfold intRender at hc
  by_cases hneg : i < 0
  · rw [if_pos hneg] at hc
    rcases List.mem_cons.mp hc with rfl | hm
    · exact Or.inl rfl
    · exact Or.inr (natRender_digits c hm)
  · rw [if_neg hneg] at hc
    exact Or.inr (natRender_digits c hc)

theorem intRender_no_space (i : Int) : ∀ c ∈ intRender i, isPySpace c = false := by
  intro c hc
  rcases intRender_chars i c hc with rfl | hd
  · decide
  · exact isDigit_not_space hd

theorem intRender_no_comma (i : Int) : ',' ∉ intRender i := by
  intro hc
  rcases intRender_chars i ',' hc with h | h
  · exact absurd h (by decide)
  · exact absurd h (by decide)

theorem intRender_no_slash (i : Int) : '/' ∉ intRender i := by
  intro hc
  rcases intRender_chars i '/' hc with h | h
  · exact absurd h (by decide)
  · exact absurd h (by decide)

theorem intRender_ne_nil (i : Int) : intRender i ≠ [] := by
  unfold intRender
  by_cases hneg : i < 0
  · simp [hneg]
  · simp [hneg, natRender_ne_nil]

theorem dropTrailing_no_space {s : Str} (h : ∀ c ∈ s, isPySpace c = false) :
    dropTrailing s = s := by
  unfold dropTrailing
  have hrev : s.reverse.dropWhile isPySpace = s.reverse := by
    cases hr : s.reverse with
    | nil => rfl
    | cons c cs =>
      have hc : c ∈ s := by
        rw [← List.mem_reverse, hr]
        exact List.mem_cons_self _ _
      rw [List.dropWhile_cons_of_neg (by simp [h c hc])]
  rw [hrev, List.reverse_reverse]

theorem pyStrip_no_space {s : Str} (h : ∀ c ∈ s, isPySpace c = false) : pyStrip s = s := by
  unfold pyStrip
  cases s with
  | nil => rfl
  | cons c cs =>
    rw [List.dropWhile_cons_of_neg (by simp [h c (List.mem_cons_self _ _)])]
    exact dropTrailing_no_space h

theorem pyStrip_all_space {s : Str} (h : ∀ c ∈ s, isPySpace c = true) : pyStrip s = [] := by
  unfold pyStrip
  rw [List.dropWhile_eq_nil_iff.mpr h]
  rfl

theorem dropTrailing_append_space (x : Str) : dropTrailing (x ++ [' ']) = dropTrailing x := by
  unfold dropTrailing
  rw [List.reverse_append]
  simp only [List.reverse_cons, List.reverse_nil, List.nil_append, List.singleton_append]
  rw [List.dropWhile_cons_of_pos (by decide)]

theorem pyStrip_append_space (x : Str) : pyStrip (x ++ [' ']) = pyStrip x := by
  unfold pyStrip
  rw [List.dropWhile_append]
  by_cases he : (x.dropWhile isPySpace).isEmpty = true
  · rw [if_pos he]
    rw [List.isEmpty_iff.mp he]
    decide
  · rw [if_neg he]
    exact dropTrailing_append_space _

theorem pyStrip_cons_space (x : Str) : pyStrip (' ' :: x) = pyStrip x := by
  unfold pyStrip
  rw [List.dropWhile_cons_of_pos (by decide)]

theorem pyInt_intRender (i : Int) : pyInt (intRender i) = some i := by
  rw [pyInt, pyStrip_no_space (intRender_no_space i)]
  by_cases hneg : i < 0
  · rw [intRender, if_pos hneg]
    simp [parseNatDigits_natRender]
    simp [abs_of_nonpos (le_of_lt hneg)]
  · rw [intRender, if_neg hneg]
    rcases hnr : natRender i.natAbs with _ | ⟨c, rest⟩
    · exact absurd hnr (natRender_ne_nil _)
    · have hcdig : c.isDigit = true := by
        apply natRender_digits c
        rw [hnr]
        exact List.mem_cons_self _ _
      have hm : ¬c = '-' := by
        rintro rfl
        exact absurd hcdig (by decide)
      have hp : ¬c = '+' := by
        rintro rfl
        exact absurd hcdig (by decide)
      simp only []
      rw [if_neg hm, if_neg hp, ← hnr, parseNatDigits_natRender]
      simp
      omega

theorem joinWith_cons₂ (sep p q : Str) (qs : List Str) :
    joinWith sep (p :: q :: qs) = p ++ sep ++ joinWith sep (q :: qs) := rfl

theorem mem_joinWith {sep : Str} :
    ∀ {ps : List Str} {c : Char}, c ∈ joinWith sep ps → c ∈ sep ∨ ∃ p ∈ ps, c ∈ p := by
  intro ps
  induction ps with
  | nil => intro c hc; simp [joinWith] at hc
  | cons p rest ih =>
    intro c hc
    cases rest with
    | nil =>
      right
      exact ⟨p, List.mem_cons_self _ _, hc⟩
    | cons q qs =>
      rw [joinWith_cons₂] at hc
      rcases List.mem_append.mp hc with hc1 | hc2
      · rcases List.mem_append.mp hc1 with hc3 | hc4
        · exact Or.inr ⟨p, List.mem_cons_self _ _, hc3⟩
        · exact Or.inl hc4
      · rcases ih hc2 with h | ⟨r, hr, hcr⟩
        · exact Or.inl h
        · exact Or.inr ⟨r, List.mem_cons_of_mem _ hr, hcr⟩

theorem joinWith_ne_nil {sep : Str} {p : Str} {ps : List Str} (hp : p ≠ []) :
    joinWith sep (p :: ps) ≠ [] := by
  cases ps with
  | nil => exact hp
  | cons q qs =>
    rw [joinWith_cons₂]
    simp [hp]

theorem mapMO_eq_none {α β : Type} {f : α → Option β} :
    ∀ {l : List α}, (∃ x ∈ l, f x = none) → mapMO f l = none := by
  intro l
  induction l with
  | nil => rintro ⟨x, hx, _⟩; simp at hx
  | cons a as ih =>
    rintro ⟨x, hx, hfx⟩
    rw [mapMO]
    rcases List.mem_cons.mp hx with rfl | hxs
    · rw [hfx]
    · cases hfa : f a with
      | none => rfl
      | some b => rw [ih ⟨x, hxs, hfx⟩]

theorem mapMO_pyInt_render (codes : List Int) :
    mapMO (fun c => pyInt (pyStrip c)) (codes.map intRender) = some codes := by
  induction codes with
  | nil => rfl
  | cons c cs ih =>
    rw [List.map_cons, mapMO]
    rw [pyStrip_no_space (intRender_no_space c), pyInt_intRender, ih]

theorem filter_render (codes : List Int) :
    (codes.map intRender).filter (fun c => !(pyStrip c).isEmpty) = codes.map intRender := by
  rw [List.filter_eq_self]
  intro c hc
  simp only [List.mem_map] at hc
  obtain ⟨i, _, rfl⟩ := hc
  rw [pyStrip_no_space (intRender_no_space i)]
  cases hr : intRender i with
  | nil => exact absurd hr (intRender_ne_nil i)
  | cons x xs => rfl

/-! ### C7 -/

/-- C7: `parse_testable_entry` maps `"name / c1,...,cn"` (name slash-free and
nonempty after trimming, integer codes rendered in decimal, n ≥ 1) to
`(trimmed name, [c1..cn])`; maps a bare `"name"` to `(name, [200])`; and
returns `(None, None)` on empty or whitespace-only input, on any code part
whose comma-separated tokens are all blank (covering empty, whitespace-only
and all-comma code parts), and on any code part with a token that Python
`int()` rejects after stripping. -/
theorem C7_parse_testable_entry :
    (∀ (name : Str) (codes : List Int),
      '/' ∉ name → pyStrip name ≠ [] → codes ≠ [] →
      parse_testable_entry (name ++ str " / " ++ joinWith [','] (codes.map intRender)) =
        (some (pyStrip name), some codes))
    ∧ (∀ name : Str, '/' ∉ name → pyStrip name ≠ [] →
        parse_testable_entry name = (some (pyStrip name), some [200]))
    ∧ (∀ s : Str, (∀ c ∈ s, isPySpace c = true) → parse_testable_entry s = (none, none))
    ∧ (∀ (name cs : Str), '/' ∉ name → '/' ∉ cs →
        (∀ t ∈ splitOnChar ',' (pyStrip cs), ∀ c ∈ t, isPySpace c = true) →
        parse_testable_entry (name ++ '/' :: cs) = (none, none))
    ∧ (∀ (name cs : Str), '/' ∉ name → '/' ∉ cs →
        (∃ t ∈ splitOnChar ',' (pyStrip cs), pyStrip t ≠ [] ∧ pyInt (pyStrip t) = none) →
        parse_testable_entry (name ++ '/' :: cs) = (none, none)) := by
  refine ⟨?_, ?_, ?_, ?_, ?_⟩
  · intro name codes h1 h2 h3
    have hJmem : ∀ c ∈ joinWith [','] (codes.map intRender),
        c = ',' ∨ ∃ i ∈ codes, c ∈ intRender i := by
      intro c hc
      rcases mem_joinWith hc with h | ⟨p, hp, hcp⟩
      · left; simpa using h
      · right
        obtain ⟨i, hi, rfl⟩ := List.mem_map.mp hp
        exact ⟨i, hi, hcp⟩
    have hJns : ∀ c ∈ joinWith [','] (codes.map intRender), isPySpace c = false := by
      intro c hc
      rcases hJmem c hc with rfl | ⟨i, _, hci⟩
      · decide
      · exact intRender_no_space i c hci
    have hJnoslash : '/' ∉ joinWith [','] (codes.map intRender) := by
      intro hc
      rcases hJmem '/' hc with h | ⟨i, _, hci⟩
      · exact absurd h (by decide)
      · exact intRender_no_slash i hci
    have hx : '/' ∉ name ++ [' '] := by
      intro hc
      rcases List.mem_append.mp hc with h | h
      · exact h1 h
      · simp at h
    have ht : '/' ∉ ' ' :: joinWith [','] (codes.map intRender) := by
      intro hc
      rcases List.mem_cons.mp hc with h | h
      · exact absurd h (by decide)
      · exact hJnoslash h
    have hshape : name ++ str " / " ++ joinWith [','] (codes.map intRender) =
        (name ++ [' ']) ++ '/' :: (' ' :: joinWith [','] (codes.map intRender)) := by
      simp [str]
    rw [hshape, parse_testable_entry, splitOnChar_append_sep hx, splitOnChar_not_mem ht]
    try simp only []
    rw [pyStrip_append_space]
    rw [if_neg (by simpa [List.isEmpty_iff] using h2)]
    try simp only []
    rw [pyStrip_cons_space, pyStrip_no_space hJns]
    have hJne : joinWith [','] (codes.map intRender) ≠ [] := by
      cases codes with
      | nil => exact absurd rfl h3
      | cons c0 cs =>
        rw [List.map_cons]
        exact joinWith_ne_nil (intRender_ne_nil c0)
    rw [if_neg (by simpa [List.isEmpty_iff] using hJne)]
    have hsplitc : splitOnChar ',' (joinWith [','] (codes.map intRender)) =
        codes.map intRender := by
      apply splitOnChar_join (by simp [h3])
      intro p hp
      obtain ⟨i, _, rfl⟩ := List.mem_map.mp hp
      exact intRender_no_comma i
    rw [hsplitc, filter_render, mapMO_pyInt_render]
    try simp only []
    rw [if_neg (by simpa [List.isEmpty_iff] using h3)]
  · intro name h1 h2
    rw [parse_testable_entry, splitOnChar_not_mem h1]
    try simp only []
    rw [if_neg (by simpa [List.isEmpty_iff] using h2)]
  · intro s hs
    have h1 : '/' ∉ s := by
      intro hc
      have := hs '/' hc
      exact absurd this (by decide)
    rw [parse_testable_entry, splitOnChar_not_mem h1]
    try simp only []
    rw [if_pos (by simp [List.isEmpty_iff, pyStrip_all_space hs])]
  · intro name cs h1 h2 hblank
    rw [parse_testable_entry, splitOnChar_append_sep h1, splitOnChar_not_mem h2]
    try simp only []
    by_cases hn : (pyStrip name).isEmpty
    · rw [if_pos hn]
    · rw [if_neg hn]
      try simp only []
      by_cases hcse : (pyStrip cs).isEmpty
      · rw [if_pos hcse]
      · rw [if_neg hcse]
        have hfe : (splitOnChar ',' (pyStrip cs)).filter (fun c => !(pyStrip c).isEmpty) = [] := by
          rw [List.filter_eq_nil_iff]
          intro t ht
          simp [pyStrip_all_space (hblank t ht)]
        rw [hfe]
        rfl
  · intro name cs h1 h2 hexist
    obtain ⟨t0, ht0, ht0ne, ht0int⟩ := hexist
    rw [parse_testable_entry, splitOnChar_append_sep h1, splitOnChar_not_mem h2]
    try simp only []
    by_cases hn : (pyStrip name).isEmpty
    · rw [if_pos hn]
    · rw [if_neg hn]
      try simp only []
      have hcsne : ¬(pyStrip cs).isEmpty = true := by
        cases hsc : pyStrip cs with
        | nil =>
          rw [hsc] at ht0
          simp [splitOnChar] at ht0
          subst ht0
          exact fun _ => ht0ne rfl
        | cons x xs => simp
      rw [if_neg hcsne]
      have hmapnone : mapMO (fun c => pyInt (pyStrip c))
          ((splitOnChar ',' (pyStrip cs)).filter (fun c => !(pyStrip c).isEmpty)) = none := by
        apply mapMO_eq_none
        refine ⟨t0, List.mem_filter.mpr ⟨ht0, ?_⟩, ht0int⟩
        simpa [List.isEmpty_iff] using ht0ne
      rw [hmapnone]

/-- Witness for C7 at the source docstring's own example
`"PUT example / 200,204"`. -/
theorem C7_witness :
    parse_testable_entry
        (str "PUT example" ++ str " / " ++ joinWith [','] ([200, 204].map intRender)) =
      (some (pyStrip (str "PUT example")), some [200, 204]) :=
  C7_parse_testable_entry.1 (str "PUT example") [200, 204]
    (by decide) (by decide) (by decide)

/-! ### C5 -/

/-- Whether one `testable` entry produces a pass: a string whose parse
succeeds and whose `test_example` run returns True. -/
def entryPassB (ex : Str → Option Int × Option Str × Str) (jparse : Str → Option Jv)
    (content : Str) (tc : Jv) (e : Jv) : Bool :=
  match e with
  | .str s =>
    match parse_testable_entry s with
    | (some name, codes?) =>
      match test_example ex jparse content tc name (codes?.getD [200]) with
      | .ok true => true
      | _ => false
    | (none, _) => false
  | _ => false

theorem pyLen_pyIter {v : Jv} {n : Nat} {items : List Jv}
    (hl : pyLen v = .ok n) (hi : pyIter v = .ok items) : n = items.length := by
  cases v <;> simp [pyLen, pyIter] at hl hi <;> simp [← hl, ← hi]

theorem runEntries_sum (ex : Str → Option Int × Option Str × Str) (jparse : Str → Option Jv)
    (content : Str) (tc : Jv) :
    ∀ (items : List Jv) (p f : Nat),
      runEntries ex jparse content tc items = .ok (p, f) → p + f = items.length := by
  intro items
  induction items with
  | nil =>
    intro p f h
    rw [runEntries] at h
    cases h
    rfl
  | cons item rest ih =>
    intro p f h
    cases item with
    | str s =>
      rw [runEntries] at h
      rcases hps : parse_testable_entry s with ⟨n?, c?⟩
      rw [hps] at h
      cases n? with
      | none =>
        cases hrr : runEntries ex jparse content tc rest with
        | error e => rw [hrr] at h; simp at h
        | ok pf =>
          rw [hrr] at h
          simp at h
          obtain ⟨h1, h2⟩ := h
          have := ih pf.1 pf.2 hrr
          simp only [List.length_cons]
          omega
      | some name =>
        simp only [] at h
        cases hte : test_example ex jparse content tc name (c?.getD [200]) with
        | error e => rw [hte] at h; simp at h
        | ok passed =>
          rw [hte] at h
          cases hrr : runEntries ex jparse content tc rest with
          | error e => rw [hrr] at h; simp at h
          | ok pf =>
            rw [hrr] at h
            cases passed <;>
              (simp at h
               obtain ⟨h1, h2⟩ := h
               have := ih pf.1 pf.2 hrr
               simp only [List.length_cons]
               omega)
    | null =>
      rw [runEntries] at h
      simp at h
      exact fun u hu => Jv.noConfusion hu
    | bool b =>
      rw [runEntries] at h
      simp at h
      exact fun u hu => Jv.noConfusion hu
    | int n =>
      rw [runEntries] at h
      simp at h
      exact fun u hu => Jv.noConfusion hu
    | float q =>
      rw [runEntries] at h
      simp at h
      exact fun u hu => Jv.noConfusion hu
    | arr xs =>
      rw [runEntries] at h
      simp at h
      exact fun u hu => Jv.noConfusion hu
    | obj kvs =>
      rw [runEntries] at h
      simp at h
      exact fun u hu => Jv.noConfusion hu

theorem runEntries_counts (ex : Str → Option Int × Option Str × Str)
    (jparse : Str → Option Jv) (content : Str) (tc : Jv) :
    ∀ (items : List Jv),
      (∀ e ∈ items, ∃ s, e = .str s) →
      (∀ s name codes?, (Jv.str s) ∈ items → parse_testable_entry s = (some name, codes?) →
        ∃ b, test_example ex jparse content tc name (codes?.getD [200]) = .ok b) →
      runEntries ex jparse content tc items =
        .ok (items.countP (entryPassB ex jparse content tc),
             items.countP (fun e => !entryPassB ex jparse content tc e)) := by
  intro items
  induction items with
  | nil => intro _ _; rfl
  | cons item rest ih =>
    intro hstr hexec
    obtain ⟨s, rfl⟩ := hstr item (List.mem_cons_self _ _)
    have ihr := ih (fun e he => hstr e (List.mem_cons_of_mem _ he))
      (fun s2 n2 c2 hm hp => hexec s2 n2 c2 (List.mem_cons_of_mem _ hm) hp)
    rw [runEntries]
    rcases hps : parse_testable_entry s with ⟨n?, c?⟩
    cases n? with
    | none =>
      rw [ihr]
      simp [List.countP_cons, entryPassB, hps]
    | some name =>
      obtain ⟨b, hb⟩ := hexec s name c? (List.mem_cons_self _ _) hps
      simp only []
      rw [hb, ihr]
      cases b <;> simp [List.countP_cons, entryPassB, hps, hb]

/-- C5: the `test_file` summary triple always satisfies `total = passed +
failed` whenever the run returns; every terminal pre-Testing state (unreadable
file, missing/falsy front matter, failed schema validation, falsy `test`
mapping, falsy `testable`) returns `(0, 0, 0)`; in the Testing state with a
list of string entries whose well-formed entries all execute without raising,
the total is the length of `testable` and each entry contributes exactly one
pass or one fail in declaration order; and a malformed entry contributes an
immediate failure without invoking `test_example`, for every executor. -/
theorem C5_test_file_totals :
    (∀ content? yload validate ex jparse t p f,
      test_file content? yload validate ex jparse = .ok (t, p, f) → t = p + f)
    ∧ (∀ yload validate ex jparse,
        test_file none yload validate ex jparse = .ok (0, 0, 0))
    ∧ (∀ content yload validate ex jparse,
        (parse_front_matter_with_errors yload content).1 = none →
        test_file (some content) yload validate ex jparse = .ok (0, 0, 0))
    ∧ (∀ content yload validate ex jparse m,
        (parse_front_matter_with_errors yload content).1 = some m → truthy m = false →
        test_file (some content) yload validate ex jparse = .ok (0, 0, 0))
    ∧ (∀ content yload validate ex jparse m,
        (parse_front_matter_with_errors yload content).1 = some m → truthy m = true →
        (validate m).1 = false →
        test_file (some content) yload validate ex jparse = .ok (0, 0, 0))
    ∧ (∀ content yload validate ex jparse m tc,
        (parse_front_matter_with_errors yload content).1 = some m → truthy m = true →
        (validate m).1 = true → pyGet m (str "test") (.obj []) = .ok tc →
        truthy tc = false →
        test_file (some content) yload validate ex jparse = .ok (0, 0, 0))
    ∧ (∀ content yload validate ex jparse m tc tb,
        (parse_front_matter_with_errors yload content).1 = some m → truthy m = true →
        (validate m).1 = true → pyGet m (str "test") (.obj []) = .ok tc →
        truthy tc = true → pyGet tc (str "testable") (.arr []) = .ok tb →
        truthy tb = false →
        test_file (some content) yload validate ex jparse = .ok (0, 0, 0))
    ∧ (∀ content yload validate ex jparse m tc entries,
        (parse_front_matter_with_errors yload content).1 = some m → truthy m = true →
        (validate m).1 = true → pyGet m (str "test") (.obj []) = .ok tc →
        truthy tc = true → pyGet tc (str "testable") (.arr []) = .ok (.arr entries) →
        entries ≠ [] →
        (∀ e ∈ entries, ∃ s, e = .str s) →
        (∀ s name codes?, (Jv.str s) ∈ entries →
          parse_testable_entry s = (some name, codes?) →
          ∃ b, test_example ex jparse content tc name (codes?.getD [200]) = .ok b) →
        test_file (some content) yload validate ex jparse =
          .ok (entries.length,
               entries.countP (entryPassB ex jparse content tc),
               entries.countP (fun e => !entryPassB ex jparse content tc e)))
    ∧ (∀ ex jparse content tc s rest,
        parse_testable_entry s = (none, none) →
        runEntries ex jparse content tc (Jv.str s :: rest) =
          (runEntries ex jparse content tc rest).map (fun pf => (pf.1, pf.2 + 1))) := by
  refine ⟨?_, ?_, ?_, ?_, ?_, ?_, ?_, ?_, ?_⟩
  · intro content? yload validate ex jparse t p f h
    rw [test_file.eq_def] at h
    split at h
    · simp at h; obtain ⟨h1, h2, h3⟩ := h; omega
    · split at h
      · simp at h; obtain ⟨h1, h2, h3⟩ := h; omega
      · split at h
        · simp at h; obtain ⟨h1, h2, h3⟩ := h; omega
        · split at h
          · simp at h; obtain ⟨h1, h2, h3⟩ := h; omega
          · split at h
            · exact absurd h (by simp)
            · split at h
              · simp at h; obtain ⟨h1, h2, h3⟩ := h; omega
              · split at h
                · exact absurd h (by simp)
                · split at h
                  · simp at h; obtain ⟨h1, h2, h3⟩ := h; omega
                  · split at h
                    · exact absurd h (by simp)
                    · split at h
                      · exact absurd h (by simp)
                      · split at h
                        · exact absurd h (by simp)
                        · rename_i m hval tc htc tb htb n hlen items hiter pf hrun
                          simp at h
                          obtain ⟨h1, h2⟩ := h
                          subst h1
                          have hp2 := congrArg Prod.fst h2
                          have hf2 := congrArg Prod.snd h2
                          simp at hp2 hf2
                          have hsum := runEntries_sum ex jparse _ _ hlen pf.1 pf.2 hrun
                          have hlen2 := pyLen_pyIter htb items
                          omega
  · intro yload validate ex jparse; rfl
  · intro content yload validate ex jparse hp
    rw [test_file.eq_def]
    simp [hp]
  · intro content yload validate ex jparse m hp hm
    rw [test_file.eq_def]
    simp [hp, hm]
  · intro content yload validate ex jparse m hp hm hv
    rw [test_file.eq_def]
    simp [hp, hm, hv]
  · intro content yload validate ex jparse m tc hp hm hv htc htcf
    rw [test_file.eq_def]
    simp [hp, hm, hv, htc, htcf]
  · intro content yload validate ex jparse m tc tb hp hm hv htc htct htb htbf
    rw [test_file.eq_def]
    simp [hp, hm, hv, htc, htct, htb, htbf]
  · intro content yload validate ex jparse m tc entries hp hm hv htc htct htb hne hstr hexec
    have htbt : truthy (Jv.arr entries) = true := by
      simp [truthy, List.isEmpty_iff, hne]
    rw [test_file.eq_def]
    simp only [hp]
    simp only [hm, hv, htc, htct, htb, htbt]
    simp only [Bool.not_true, Bool.false_eq_true, if_false, pyLen, pyIter]
    rw [runEntries_counts ex jparse content tc entries hstr hexec]
  · intro ex jparse content tc s rest hps
    rw [runEntries, hps]
    cases hrr : runEntries ex jparse content tc rest with
    | error e => rfl
    | ok pf => rfl

/-- Concrete stubs for the C5 witness: YAML metadata with two testable
entries (one malformed), a failing executor and a failing JSON decoder. -/
def yloadTestable : Str → YRes := fun _ =>
  .ok (some (Jv.obj [(str "test",
    Jv.obj [(str "testable", Jv.arr [Jv.str (str "bad /"), Jv.str (str "GET example")])])]))

/-- An executor stub whose every run fails to produce a status code. -/
def exFail : Str → Option Int × Option Str × Str := fun _ => (none, none, [])

/-- A JSON decoder stub that always fails. -/
def jparseNone : Str → Option Jv := fun _ => none

/-- Witness for C5: a Testing-state run with one malformed and one failing
entry returns (2, 0, 2). -/
theorem C5_witness :
    test_file (some (str "---\nx\n---\n")) yloadTestable (fun _ => (true, false))
      exFail jparseNone = .ok (2, 0, 2) := by
  have h := C5_test_file_totals.2.2.2.2.2.2.2.1 (str "---\nx\n---\n") yloadTestable
    (fun _ => (true, false)) exFail jparseNone
    (Jv.obj [(str "test",
      Jv.obj [(str "testable", Jv.arr [Jv.str (str "bad /"), Jv.str (str "GET example")])])])
    (Jv.obj [(str "testable", Jv.arr [Jv.str (str "bad /"), Jv.str (str "GET example")])])
    [Jv.str (str "bad /"), Jv.str (str "GET example")]
    rfl (by decide) rfl rfl (by decide) rfl (by simp)
    (by
      intro e he
      simp only [List.mem_cons, List.mem_singleton, List.not_mem_nil, or_false] at he
      rcases he with rfl | rfl
      · exact ⟨_, rfl⟩
      · exact ⟨_, rfl⟩)
    (by
      intro s name codes? hs hp
      simp only [List.mem_cons, List.mem_singleton, List.not_mem_nil, or_false] at hs
      rcases hs with hs | hs
      · injection hs with hs
        subst hs
        rw [show parse_testable_entry (str "bad /") = (none, none) from by decide] at hp
        exact absurd hp (by simp)
      · injection hs with hs
        subst hs
        rw [show parse_testable_entry (str "GET example") =
          (some (str "GET example"), some [200]) from by decide] at hp
        injection hp with hp1 hp2
        injection hp1 with hp1
        subst hp1
        subst hp2
        exact ⟨false, rfl⟩)
  rw [h]
  rfl

end DocTest
